import Mathlib

/-!
Shallow embedding of the trace-reconciliation engine of `kb_ergogen_helper`.

The repository ships two revisions of the same script:
`ergogen_helper.py` (the current revision, with filters and subcommands) and
`ergogen-helper.py` (the earlier revision, which copies every trace with no
filtering).  Pure fragments of the Python code become Lean functions; the
mutation of a board handle (`dst_pcb.Add`, `trace.SetLocked`) becomes explicit
state passing; calls into the external `pcbnew` provider that can raise
(`dst_pcb.Add`, `shutil.copy`, `pcb.Save`) are parametrised by success oracles,
and a raised `ErgogenHelperException` becomes an error value.  Filesystem
effects of `save_pcb` are modelled as a list of events applied to a map from
paths to file contents.
-/

/-- A board-native point, mirroring pcbnew's `VECTOR2I`: integer coordinates
compared with exact equality (`GetStart() == GetStart()` in the source). -/
structure Point where
  x : Int
  y : Int
deriving DecidableEq

/-- A trace, mirroring the pcbnew track objects the script manipulates through
`GetStart`, `GetEnd`, `IsLocked` and `SetLocked`. -/
structure Trace where
  getStart : Point
  getEnd : Point
  isLocked : Bool
deriving DecidableEq

/-- A file path split as Python's `pathlib.Path` exposes it to the script:
a stem and a suffix, so that `with_stem` is faithful. -/
structure PcbPath where
  stem : String
  suffix : String
deriving DecidableEq

/-- Python's `Path.with_stem`: replace the stem, keep the suffix. -/
def PcbPath.with_stem (p : PcbPath) (s : String) : PcbPath :=
  { p with stem := s }

/-- A board handle, mirroring the pcbnew `BOARD` methods the script uses:
`GetTracks` and `GetFileName`. -/
structure Board where
  getTracks : List Trace
  getFileName : PcbPath
deriving DecidableEq

/-- `get_traces(pcb)`: returns `pcb.GetTracks()`.  The `except` branch only
re-raises a provider failure, which the embedding does not need to model for
the claims below. -/
def get_traces (pcb : Board) : List Trace :=
  pcb.getTracks

/-- `check_traces_equal(trace_1, trace_2)`: true when both the start points and
the end points coincide, mirroring the if/else of the source. -/
def check_traces_equal (trace_1 trace_2 : Trace) : Bool :=
  if trace_1.getStart = trace_2.getStart ∧ trace_1.getEnd = trace_2.getEnd then
    true
  else
    false

/-- `pcb_has_trace(pcb, lookup_trace)`: the for-loop with early `return True`
is the list-`any` of `check_traces_equal` over the board's tracks. -/
def pcb_has_trace (pcb : Board) (lookup_trace : Trace) : Bool :=
  (pcb.getTracks).any (fun pcb_trace => check_traces_equal lookup_trace pcb_trace)

/-- `filter_existing_traces(traces, pcb)`: keeps the traces the destination
board does not already have and reports how many were removed. -/
def filter_existing_traces (traces : List Trace) (pcb : Board) : Nat × List Trace :=
  let filtered_traces := traces.filter (fun trace => !pcb_has_trace pcb trace)
  (traces.length - filtered_traces.length, filtered_traces)

/-- `filter_locked_traces(traces)`: keeps the unlocked traces and reports how
many were removed. -/
def filter_locked_traces (traces : List Trace) : Nat × List Trace :=
  let filtered_traces := traces.filter (fun trace => !trace.isLocked)
  (traces.length - filtered_traces.length, filtered_traces)

/-- The counts `copy_traces` reports (`locked_num`, `existing_num`,
`len(traces)` copied and `traces_total`). -/
structure MergeReport where
  copied : Nat
  total : Nat
  lockedSkipped : Nat
  existingSkipped : Nat
deriving DecidableEq

/-- Outcome of `copy_traces`: either the reported counts, or the message of the
`ErgogenHelperException` it raises. -/
inductive CopyResult where
  | ok (r : MergeReport)
  | raised (err : String)
deriving DecidableEq

/-- The insertion loop of `copy_traces`: `dst_pcb.Add(trace)` for each trace in
order.  `addOk` is the success oracle for the external `Add`; on the first
failure the loop stops (the source raises immediately), returning the board
state reached so far and `false`. -/
def insertTraces (addOk : Trace → Bool) : Board → List Trace → Board × Bool
  | dst_pcb, [] => (dst_pcb, true)
  | dst_pcb, trace :: rest =>
    if addOk trace then
      insertTraces addOk { dst_pcb with getTracks := dst_pcb.getTracks ++ [trace] } rest
    else
      (dst_pcb, false)

/-- `copy_traces(src_pcb, dst_pcb, unlocked_only)` of the current revision:
extract, optionally lock-filter, existing-filter, then insert each survivor.
Returns the destination board state together with the reported counts, or the
raised error. -/
def copy_traces (addOk : Trace → Bool) (src_pcb dst_pcb : Board)
    (unlocked_only : Bool) : Board × CopyResult :=
  let traces := get_traces src_pcb
  let traces_total := traces.length
  let lockedFiltered :=
    if unlocked_only then filter_locked_traces traces else (0, traces)
  let existingFiltered := filter_existing_traces lockedFiltered.2 dst_pcb
  let inserted := insertTraces addOk dst_pcb existingFiltered.2
  if inserted.2 then
    (inserted.1,
     CopyResult.ok
       ⟨existingFiltered.2.length, traces_total, lockedFiltered.1, existingFiltered.1⟩)
  else
    (inserted.1, CopyResult.raised "Could not copy trace")

/-- The survivors `copy_traces` inserts: the source traces after the optional
lock filter and the existing filter. -/
def surviving_traces (src_pcb dst_pcb : Board) (unlocked_only : Bool) : List Trace :=
  (filter_existing_traces
    (if unlocked_only then (filter_locked_traces (get_traces src_pcb)).2
     else get_traces src_pcb) dst_pcb).2

/-- Whether a `CopyResult` is a success. -/
def mergeSucceeded : CopyResult → Bool
  | CopyResult.ok _ => true
  | CopyResult.raised _ => false

/-- `lock_traces(pcb)`: sets every trace to locked in place; the reported count
is `len(traces)`. -/
def lock_traces (pcb : Board) : Board × Nat :=
  let traces := get_traces pcb
  ({ pcb with getTracks := traces.map (fun trace => { trace with isLocked := true }) },
   traces.length)

/-- `copy_traces(src_pcb, dst_pcb)` of the earlier revision
(`ergogen-helper.py`): no filtering at all, just the insertion loop with the
same immediate raise on failure. -/
def EarlierRevision.copy_traces (addOk : Trace → Bool) (src_pcb dst_pcb : Board) :
    Board × Bool :=
  let traces := get_traces src_pcb
  insertTraces addOk dst_pcb traces

/-- Modelled from the spec: the §3 invariant's wording of trace identity as the
unordered endpoint pair, used to compare the spec's claim with the source's
`check_traces_equal`. -/
def traces_equal_unordered (t1 t2 : Trace) : Bool :=
  if (t1.getStart = t2.getStart ∧ t1.getEnd = t2.getEnd) ∨
     (t1.getStart = t2.getEnd ∧ t1.getEnd = t2.getStart) then
    true
  else
    false

/-- Helper: the boolean `check_traces_equal` decides ordered endpoint
equality. -/
lemma check_traces_equal_eq_true (t1 t2 : Trace) :
    check_traces_equal t1 t2 = true ↔
      (t1.getStart = t2.getStart ∧ t1.getEnd = t2.getEnd) := by
  unfold check_traces_equal
  split <;> simp_all

/-- C2: `check_traces_equal` returns true iff the start points are equal and
the end points are equal, under exact integer equality of coordinates; as a
Lean function it has no side effects. -/
theorem check_traces_equal_spec (t1 t2 : Trace) :
    check_traces_equal t1 t2 = true ↔
      (t1.getStart = t2.getStart ∧ t1.getEnd = t2.getEnd) :=
  check_traces_equal_eq_true t1 t2

/-- C1 counterexample: two traces whose unordered endpoint pairs coincide (the
second is the first reversed) that `check_traces_equal` does not consider
equal, refuting the claim that trace identity is the unordered pair. -/
theorem check_traces_equal_unordered_refuted :
    traces_equal_unordered ⟨⟨0, 0⟩, ⟨1, 0⟩, false⟩ ⟨⟨1, 0⟩, ⟨0, 0⟩, false⟩ = true ∧
    check_traces_equal ⟨⟨0, 0⟩, ⟨1, 0⟩, false⟩ ⟨⟨1, 0⟩, ⟨0, 0⟩, false⟩ = false := by
  constructor <;> decide

/-- C1 amended: the trace-equality predicate holds iff the ordered endpoints
agree (start with start, end with end); in particular a trace with start `s`
and end `e`, `s ≠ e`, is NOT considered the same trace as one with start `e`
and end `s`. -/
theorem check_traces_equal_ordered_identity (t1 t2 : Trace) (s e : Point)
    (hne : s ≠ e) :
    (check_traces_equal t1 t2 = true ↔
      (t1.getStart = t2.getStart ∧ t1.getEnd = t2.getEnd)) ∧
    check_traces_equal ⟨s, e, false⟩ ⟨e, s, false⟩ = false := by
  refine ⟨check_traces_equal_eq_true t1 t2, ?_⟩
  unfold check_traces_equal
  split
  · rename_i h
    exact absurd h.1 hne
  · rfl

/-- C1 amended witness: the ordered-identity theorem applied at the concrete
endpoints (0,0) and (1,0). -/
theorem check_traces_equal_ordered_identity_witness :
    check_traces_equal ⟨⟨0, 0⟩, ⟨1, 0⟩, false⟩ ⟨⟨1, 0⟩, ⟨0, 0⟩, false⟩ = false :=
  (check_traces_equal_ordered_identity ⟨⟨0, 0⟩, ⟨1, 0⟩, false⟩ ⟨⟨1, 0⟩, ⟨0, 0⟩, false⟩
    ⟨0, 0⟩ ⟨1, 0⟩ (by decide)).2

/-- C8: the lock filter conserves the count (survivors plus removed equals the
input length) and every survivor is unlocked. -/
theorem filter_locked_traces_exact (traces : List Trace) :
    (filter_locked_traces traces).2.length + (filter_locked_traces traces).1
        = traces.length ∧
    (filter_locked_traces traces).2.all (fun trace => !trace.isLocked) = true := by
  constructor
  · simp only [filter_locked_traces]
    exact Nat.add_sub_cancel' (List.length_filter_le _ _)
  · simp only [filter_locked_traces, List.all_eq_true, List.mem_filter]
    intro trace htrace
    exact htrace.2

/-- C6: `lock_traces` sets every trace in the board to locked, unconditionally
of its prior lock state, and the reported count equals the board's total trace
count (which is preserved). -/
theorem lock_traces_locks_all (pcb : Board) :
    ((lock_traces pcb).1.getTracks.all (fun trace => trace.isLocked)) = true ∧
    (lock_traces pcb).2 = pcb.getTracks.length ∧
    (lock_traces pcb).1.getTracks.length = pcb.getTracks.length := by
  refine ⟨?_, rfl, by simp [lock_traces, get_traces]⟩
  simp [lock_traces, get_traces, List.all_eq_true]

/-- Helper: the existing filter also conserves the count. -/
lemma filter_existing_traces_conserves (traces : List Trace) (pcb : Board) :
    (filter_existing_traces traces pcb).2.length + (filter_existing_traces traces pcb).1
      = traces.length := by
  simp only [filter_existing_traces]
  exact Nat.add_sub_cancel' (List.length_filter_le _ _)

/-- Helper: the report `copy_traces` produces, as a function of the survivors
and the filter counts. -/
lemma copy_traces_snd (addOk : Trace → Bool) (src_pcb dst_pcb : Board)
    (unlocked_only : Bool) :
    (copy_traces addOk src_pcb dst_pcb unlocked_only).2 =
      if (insertTraces addOk dst_pcb
            (surviving_traces src_pcb dst_pcb unlocked_only)).2 then
        CopyResult.ok
          ⟨(surviving_traces src_pcb dst_pcb unlocked_only).length,
           (get_traces src_pcb).length,
           (if unlocked_only then (filter_locked_traces (get_traces src_pcb)).1 else 0),
           (filter_existing_traces
             (if unlocked_only then (filter_locked_traces (get_traces src_pcb)).2
              else get_traces src_pcb) dst_pcb).1⟩
      else
        CopyResult.raised "Could not copy trace" := by
  cases unlocked_only <;>
    simp [copy_traces, surviving_traces, apply_ite]

/-- Helper: the destination-board state `copy_traces` leaves behind is exactly
what the insertion loop built, whether or not the loop failed. -/
lemma copy_traces_fst (addOk : Trace → Bool) (src_pcb dst_pcb : Board)
    (unlocked_only : Bool) :
    (copy_traces addOk src_pcb dst_pcb unlocked_only).1 =
      (insertTraces addOk dst_pcb
        (surviving_traces src_pcb dst_pcb unlocked_only)).1 := by
  cases unlocked_only <;>
    simp [copy_traces, surviving_traces, apply_ite]

/-- C3: whenever `copy_traces` completes without raising, the reported counts
satisfy copied + lockedSkipped + existingSkipped = total, the total is the
number of traces extracted from the source, and with `unlocked_only = false`
the lock filter is skipped entirely, so lockedSkipped = 0. -/
theorem copy_traces_conservation (addOk : Trace → Bool) (src_pcb dst_pcb : Board)
    (unlocked_only : Bool) (r : MergeReport)
    (h : (copy_traces addOk src_pcb dst_pcb unlocked_only).2 = CopyResult.ok r) :
    r.copied + r.lockedSkipped + r.existingSkipped = r.total ∧
    r.total = (get_traces src_pcb).length ∧
    (unlocked_only = false → r.lockedSkipped = 0) := by
  rw [copy_traces_snd] at h
  split at h
  · cases h
    cases unlocked_only with
    | false =>
      refine ⟨?_, by simp, fun _ => by simp⟩
      have h1 := filter_existing_traces_conserves (get_traces src_pcb) dst_pcb
      simp only [surviving_traces] at *
      simp at *
      omega
    | true =>
      have h1 := filter_existing_traces_conserves
        (filter_locked_traces (get_traces src_pcb)).2 dst_pcb
      have h2 : (filter_locked_traces (get_traces src_pcb)).2.length +
          (filter_locked_traces (get_traces src_pcb)).1
            = (get_traces src_pcb).length := by
        simp only [filter_locked_traces]
        exact Nat.add_sub_cancel' (List.length_filter_le _ _)
      refine ⟨?_, by simp, fun hfalse => by cases hfalse⟩
      simp only [surviving_traces] at *
      simp at *
      omega
  · cases h

/-- Helper: every trace of a board is found by `pcb_has_trace` on that board,
because `check_traces_equal` is reflexive. -/
lemma pcb_has_trace_of_mem (pcb : Board) (t : Trace) (ht : t ∈ pcb.getTracks) :
    pcb_has_trace pcb t = true := by
  simp only [pcb_has_trace, List.any_eq_true]
  exact ⟨t, ht, by simp [check_traces_equal]⟩

/-- Helper: filtering a board's own traces against itself removes everything. -/
lemma filter_existing_traces_self (pcb : Board) :
    filter_existing_traces (get_traces pcb) pcb
      = ((get_traces pcb).length, []) := by
  have hnil : (get_traces pcb).filter (fun trace => !pcb_has_trace pcb trace) = [] := by
    rw [List.filter_eq_nil_iff]
    intro t ht
    simp [pcb_has_trace_of_mem pcb t ht]
  simp [filter_existing_traces, hnil]

/-- C7: merging a board into itself with `unlocked_only = false` inserts
nothing: the reported counts are copied = 0 and existingSkipped = total, and
the board is returned unchanged. -/
theorem copy_traces_self_merge (addOk : Trace → Bool) (pcb : Board) :
    copy_traces addOk pcb pcb false
      = (pcb, CopyResult.ok ⟨0, pcb.getTracks.length, 0, pcb.getTracks.length⟩) := by
  have hself := filter_existing_traces_self pcb
  simp only [get_traces] at hself
  simp [copy_traces, get_traces, hself, insertTraces]

/-- Helper: the insertion loop only ever appends to the destination board's
trace list, and what it appends is an initial segment of its input, hence a
sublist of it. -/
lemma insertTraces_appends (addOk : Trace → Bool) (dst : Board) (l : List Trace) :
    ∃ l2, List.Sublist l2 l ∧
      (insertTraces addOk dst l).1.getTracks = dst.getTracks ++ l2 := by
  induction l generalizing dst with
  | nil => exact ⟨[], List.Sublist.refl _, by simp [insertTraces]⟩
  | cons t rest ih =>
    by_cases h : addOk t
    · obtain ⟨l2, hsub, heq⟩ := ih { dst with getTracks := dst.getTracks ++ [t] }
      refine ⟨t :: l2, List.Sublist.cons₂ t hsub, ?_⟩
      simp only [insertTraces, if_pos h]
      simpa using heq
    · refine ⟨[], List.nil_sublist _, ?_⟩
      simp [insertTraces, h]

/-- Helper: when the external `Add` always succeeds, the insertion loop appends
exactly its input list and reports success. -/
lemma insertTraces_all_ok (dst : Board) (l : List Trace) :
    insertTraces (fun _ => true) dst l
      = ({ dst with getTracks := dst.getTracks ++ l }, true) := by
  induction l generalizing dst with
  | nil => simp [insertTraces]
  | cons t rest ih =>
    simp only [insertTraces, if_pos rfl]
    rw [ih]
    simp

/-- Helper: the survivors are a sublist of the source's traces, in extraction
order. -/
lemma surviving_traces_sublist (src_pcb dst_pcb : Board) (unlocked_only : Bool) :
    List.Sublist (surviving_traces src_pcb dst_pcb unlocked_only)
      (get_traces src_pcb) := by
  cases unlocked_only with
  | false =>
    exact List.filter_sublist _
  | true =>
    exact List.Sublist.trans (List.filter_sublist _) (List.filter_sublist _)

/-- C9: `copy_traces` changes the destination board only by appending traces:
whatever the `Add` oracle does, the final trace list is the original list
followed by a sublist of the source's traces in extraction order, and when
every insertion succeeds it appends exactly the surviving traces.  The source
board is passed by value and never rebuilt, so its trace sequence is
unchanged. -/
theorem copy_traces_append_only (addOk : Trace → Bool) (src_pcb dst_pcb : Board)
    (unlocked_only : Bool) :
    (∃ l2, List.Sublist l2 (get_traces src_pcb) ∧
      (copy_traces addOk src_pcb dst_pcb unlocked_only).1.getTracks
        = dst_pcb.getTracks ++ l2) ∧
    (copy_traces (fun _ => true) src_pcb dst_pcb unlocked_only).1.getTracks
      = dst_pcb.getTracks ++ surviving_traces src_pcb dst_pcb unlocked_only ∧
    List.Sublist (surviving_traces src_pcb dst_pcb unlocked_only)
      (get_traces src_pcb) := by
  refine ⟨?_, ?_, surviving_traces_sublist src_pcb dst_pcb unlocked_only⟩
  · obtain ⟨l2, hsub, heq⟩ :=
      insertTraces_appends addOk dst_pcb
        (surviving_traces src_pcb dst_pcb unlocked_only)
    refine ⟨l2, List.Sublist.trans hsub
      (surviving_traces_sublist src_pcb dst_pcb unlocked_only), ?_⟩
    rw [copy_traces_fst]
    exact heq
  · rw [copy_traces_fst, insertTraces_all_ok]

/-- Helper: the insertion loop, run on a list whose first non-accepted trace is
`t`, inserts exactly the traces before `t` and stops. -/
lemma insertTraces_stops_at_failure (addOk : Trace → Bool) (dst : Board)
    (l1 : List Trace) (t : Trace) (l2 : List Trace)
    (h1 : ∀ x ∈ l1, addOk x = true) (h2 : addOk t = false) :
    insertTraces addOk dst (l1 ++ t :: l2)
      = ({ dst with getTracks := dst.getTracks ++ l1 }, false) := by
  induction l1 generalizing dst with
  | nil =>
    simp [insertTraces, h2]
  | cons a rest ih =>
    have ha : addOk a = true := h1 a (by simp)
    have hstep : insertTraces addOk dst ((a :: rest) ++ t :: l2)
        = insertTraces addOk { dst with getTracks := dst.getTracks ++ [a] }
            (rest ++ t :: l2) := by
      simp [insertTraces, ha]
    rw [hstep, ih { dst with getTracks := dst.getTracks ++ [a] }
      (fun x hx => h1 x (by simp [hx]))]
    simp

/-- C5: if the k-th surviving trace is the first whose insertion fails,
`copy_traces` raises immediately: the result is the raised error and the
destination board retains exactly the k-1 survivors already inserted, with no
rollback and no further insertion attempted. -/
theorem copy_traces_no_rollback (addOk : Trace → Bool) (src_pcb dst_pcb : Board)
    (unlocked_only : Bool) (l1 : List Trace) (t : Trace) (l2 : List Trace)
    (hs : surviving_traces src_pcb dst_pcb unlocked_only = l1 ++ t :: l2)
    (h1 : ∀ x ∈ l1, addOk x = true) (h2 : addOk t = false) :
    copy_traces addOk src_pcb dst_pcb unlocked_only
      = ({ dst_pcb with getTracks := dst_pcb.getTracks ++ l1 },
         CopyResult.raised "Could not copy trace") := by
  have hins := insertTraces_stops_at_failure addOk dst_pcb l1 t l2 h1 h2
  have hfst := copy_traces_fst addOk src_pcb dst_pcb unlocked_only
  have hsnd := copy_traces_snd addOk src_pcb dst_pcb unlocked_only
  rw [hs, hins] at hfst
  rw [hs, hins] at hsnd
  simp only [] at hfst hsnd
  have heta : copy_traces addOk src_pcb dst_pcb unlocked_only
      = ((copy_traces addOk src_pcb dst_pcb unlocked_only).1,
         (copy_traces addOk src_pcb dst_pcb unlocked_only).2) := rfl
  rw [heta, hfst, hsnd]
  simp

/-- C10: on a destination that already holds no trace geometrically equal to
any source trace, the current revision with `unlocked_only = false` and the
earlier revision insert the same traces in the same order into the same final
board, and succeed or fail under the same conditions. -/
theorem copy_traces_refines_earlier (addOk : Trace → Bool)
    (src_pcb dst_pcb : Board)
    (h : ∀ t ∈ get_traces src_pcb, pcb_has_trace dst_pcb t = false) :
    (copy_traces addOk src_pcb dst_pcb false).1
        = (EarlierRevision.copy_traces addOk src_pcb dst_pcb).1 ∧
    mergeSucceeded (copy_traces addOk src_pcb dst_pcb false).2
        = (EarlierRevision.copy_traces addOk src_pcb dst_pcb).2 := by
  have hsurv : surviving_traces src_pcb dst_pcb false = get_traces src_pcb := by
    simp only [surviving_traces, filter_existing_traces]
    exact List.filter_eq_self.mpr (fun t ht => by simp [h t ht])
  constructor
  · rw [copy_traces_fst, hsurv]
    rfl
  · rw [copy_traces_snd, hsurv]
    cases hi : (insertTraces addOk dst_pcb src_pcb.getTracks).2 <;>
      simp [mergeSucceeded, EarlierRevision.copy_traces, get_traces, hi]

/-- A filesystem operation of `save_pcb`: the `shutil.copy` backup or the
`pcb.Save` overwrite.  `save_pcb` returns the operations it performed, in
order; a failing external operation is modelled as performing none (a failing
`shutil.copy` never writes to the original path, which is all the claims below
need). -/
inductive FsEvent where
  | copyFile (src dst : PcbPath)
  | writeFile (path : PcbPath) (content : String)
deriving DecidableEq

/-- Effect of one filesystem operation on the map from paths to contents. -/
def applyEvent (fs : PcbPath → Option String) : FsEvent → PcbPath → Option String
  | FsEvent.copyFile src dst => fun p => if p = dst then fs src else fs p
  | FsEvent.writeFile path content => fun p => if p = path then some content else fs p

/-- Effect of a sequence of filesystem operations, applied left to right. -/
def applyEvents (fs : PcbPath → Option String) : List FsEvent → PcbPath → Option String
  | [] => fs
  | e :: rest => applyEvents (applyEvent fs e) rest

/-- `save_pcb(pcb, should_backup, backup_name)`: if a backup is requested and a
file exists at the board's backing path, first copy it to the sibling path with
`_{backup_name}` appended to the stem, raising on failure; then overwrite the
original path with the board's contents, raising on failure.  `fs` is the
filesystem as `os.path.exists` sees it, `copyOk` and `saveOk` are the success
oracles for `shutil.copy` and `pcb.Save`, and `serialize` is what `pcb.Save`
writes.  Returns the operations performed, in order, and the raised message if
any. -/
def save_pcb (fs : PcbPath → Option String) (copyOk saveOk : Bool)
    (serialize : Board → String) (pcb : Board) (should_backup : Bool)
    (backup_name : String) : List FsEvent × Option String :=
  let pcb_path := pcb.getFileName
  if should_backup && (fs pcb_path).isSome then
    let backup_path := pcb_path.with_stem (pcb_path.stem ++ "_" ++ backup_name)
    if copyOk then
      if saveOk then
        ([FsEvent.copyFile pcb_path backup_path,
          FsEvent.writeFile pcb_path (serialize pcb)], none)
      else
        ([FsEvent.copyFile pcb_path backup_path], some "Could not save pcb")
    else
      ([], some "Could not backup pcb")
  else
    if saveOk then
      ([FsEvent.writeFile pcb_path (serialize pcb)], none)
    else
      ([], some "Could not save pcb")

/-- C4: with a backup requested and a file present at the board's path, a
failing backup copy raises the backup error having performed no operation at
all, so the content at the original path is byte-for-byte unchanged and the
overwrite was never attempted; and when the backup copy succeeds it is the
first operation performed, strictly before any overwrite of the original
path. -/
theorem save_pcb_backup_before_overwrite (fs : PcbPath → Option String)
    (copyOk saveOk : Bool) (serialize : Board → String) (pcb : Board)
    (backup_name : String) (hexists : (fs pcb.getFileName).isSome = true) :
    (copyOk = false →
      save_pcb fs copyOk saveOk serialize pcb true backup_name
          = ([], some "Could not backup pcb") ∧
      applyEvents fs
          (save_pcb fs copyOk saveOk serialize pcb true backup_name).1
          pcb.getFileName
        = fs pcb.getFileName) ∧
    (copyOk = true →
      (save_pcb fs copyOk saveOk serialize pcb true backup_name).1
        = FsEvent.copyFile pcb.getFileName
            (pcb.getFileName.with_stem (pcb.getFileName.stem ++ "_" ++ backup_name))
          :: (if saveOk then
                [FsEvent.writeFile pcb.getFileName (serialize pcb)]
              else [])) := by
  constructor
  · intro hc
    subst hc
    have hres : save_pcb fs false saveOk serialize pcb true backup_name
        = ([], some "Could not backup pcb") := by
      simp [save_pcb, hexists]
    exact ⟨hres, by simp [hres, applyEvents]⟩
  · intro hc
    subst hc
    cases saveOk <;> simp [save_pcb, hexists]

/-- Concrete sample trace, endpoints (0,0) and (10,0). -/
def trace_a : Trace := ⟨⟨0, 0⟩, ⟨10, 0⟩, false⟩

/-- Concrete sample trace, endpoints (20,0) and (30,0). -/
def trace_b : Trace := ⟨⟨20, 0⟩, ⟨30, 0⟩, false⟩

/-- Concrete source board holding the two sample traces. -/
def sample_src : Board := ⟨[trace_a, trace_b], ⟨"src", ".kicad_pcb"⟩⟩

/-- Concrete empty destination board. -/
def empty_dst : Board := ⟨[], ⟨"dst", ".kicad_pcb"⟩⟩

/-- An `Add` oracle that always succeeds. -/
def alwaysOk : Trace → Bool := fun _ => true

/-- An `Add` oracle that accepts only traces starting at x = 0, so it accepts
`trace_a` and rejects `trace_b`. -/
def okOnlyAtOrigin : Trace → Bool := fun trace => trace.getStart.x == 0

/-- A filesystem in which every path holds a file. -/
def fs_with_file : PcbPath → Option String := fun _ => some "original"

/-- A constant board serialization for the concrete runs. -/
def serialize_board : Board → String := fun _ => "saved"

/-- C3 witness: the conservation theorem applied to the concrete merge of the
two-trace source board into the empty board, which reports 2 + 0 + 0 = 2. -/
theorem copy_traces_conservation_witness :
    (2 : Nat) + 0 + 0 = 2 ∧
    (2 : Nat) = (get_traces sample_src).length ∧
    (false = false → (0 : Nat) = 0) :=
  copy_traces_conservation alwaysOk sample_src empty_dst false ⟨2, 2, 0, 0⟩ (by decide)

/-- C5 witness: inserting `[trace_a, trace_b]` into the empty board with an
oracle that rejects `trace_b` leaves exactly `trace_a` inserted and raises. -/
theorem copy_traces_no_rollback_witness :
    copy_traces okOnlyAtOrigin sample_src empty_dst false
      = ({ empty_dst with getTracks := empty_dst.getTracks ++ [trace_a] },
         CopyResult.raised "Could not copy trace") :=
  copy_traces_no_rollback okOnlyAtOrigin sample_src empty_dst false
    [trace_a] trace_b [] (by decide) (by decide) (by decide)

/-- C10 witness: the refinement theorem applied to the duplicate-free concrete
pair of boards. -/
theorem copy_traces_refines_earlier_witness :
    (copy_traces alwaysOk sample_src empty_dst false).1
        = (EarlierRevision.copy_traces alwaysOk sample_src empty_dst).1 ∧
    mergeSucceeded (copy_traces alwaysOk sample_src empty_dst false).2
        = (EarlierRevision.copy_traces alwaysOk sample_src empty_dst).2 :=
  copy_traces_refines_earlier alwaysOk sample_src empty_dst (by decide)

/-- C4 witness: the backup-before-overwrite theorem applied to a concrete
board and filesystem, once with the backup copy failing (no operation is
performed) and once with it succeeding (the backup is the first operation). -/
theorem save_pcb_backup_before_overwrite_witness :
    (save_pcb fs_with_file false true serialize_board empty_dst true "orig"
        = ([], some "Could not backup pcb") ∧
      applyEvents fs_with_file
          (save_pcb fs_with_file false true serialize_board empty_dst true "orig").1
          empty_dst.getFileName
        = fs_with_file empty_dst.getFileName) ∧
    (save_pcb fs_with_file true true serialize_board empty_dst true "orig").1
      = FsEvent.copyFile empty_dst.getFileName
          (empty_dst.getFileName.with_stem
            (empty_dst.getFileName.stem ++ "_" ++ "orig"))
        :: (if true then
              [FsEvent.writeFile empty_dst.getFileName (serialize_board empty_dst)]
            else []) :=
  ⟨(save_pcb_backup_before_overwrite fs_with_file false true serialize_board
      empty_dst "orig" rfl).1 rfl,
   (save_pcb_backup_before_overwrite fs_with_file true true serialize_board
      empty_dst "orig" rfl).2 rfl⟩
